import Mathlib

/-!
# Verification of the kanban-backend core (use cases + entity validation)

Shallow embedding of the TypeScript sources:
* `src/functions/src/domain/entities/{task,user}.entity.ts` (the unnamed parts of
  the repository) — self-validating entity constructors built on zod v4 schemas;
* `src/functions/src/application/use-cases/task/{create,update,delete}.use-case.ts`;
* `src/functions/src/application/use-cases/user/create-find.use-case.ts`;
* the Firestore repository adapters `fs.task.repository.ts` / `fs.user.repository.ts`.

JavaScript strings are modelled as Lean `String`, `Date` values as `Nat`
(milliseconds since the epoch), and the zod string pipeline (`.min`, `.trim`,
the default email format) is modelled character-for-character.  All state lives
in explicit store values; every repository interaction of a use case is
recorded in an explicit call trace so that "the mutating operation is never
invoked" is a statement about the trace.
-/

namespace Kanban

/-! ## JavaScript string primitives

`String.prototype.trim` and `String.prototype.toLowerCase` restricted to the
character sets that can actually occur here (the zod email/title character
classes are ASCII). -/

/-- The JavaScript whitespace class used by `String.prototype.trim`
(ASCII whitespace, NBSP, the Unicode space separators, LS, PS, BOM). -/
def isJsWhitespace (c : Char) : Bool :=
  c.toNat = 9 || c.toNat = 10 || c.toNat = 11 || c.toNat = 12 || c.toNat = 13 ||
  c.toNat = 32 || c.toNat = 160 || c.toNat = 0x1680 ||
  (0x2000 ≤ c.toNat && c.toNat ≤ 0x200A) || c.toNat = 0x2028 || c.toNat = 0x2029 ||
  c.toNat = 0x202F || c.toNat = 0x205F || c.toNat = 0x3000 || c.toNat = 0xFEFF

/-- JavaScript `s.trim()`: drop leading and trailing whitespace. -/
def jsTrim (s : String) : String :=
  ⟨((s.toList.dropWhile isJsWhitespace).reverse.dropWhile isJsWhitespace).reverse⟩

/-- JavaScript `toLowerCase` on one character (ASCII range, which is all the
email regex admits). -/
def jsLowerChar (c : Char) : Char :=
  if 65 ≤ c.toNat ∧ c.toNat ≤ 90 then Char.ofNat (c.toNat + 32) else c

/-- JavaScript `s.toLowerCase()`. -/
def jsToLower (s : String) : String := ⟨s.toList.map jsLowerChar⟩

/-! ## The zod v4 default email format

`z.email()` validates against
`^(?!\.)(?!.*\.\.)([A-Za-z0-9_'+\-\.]*)[A-Za-z0-9_+-]@([A-Za-z0-9][A-Za-z0-9\-]*\.)+[A-Za-z]{2,}$`.
Character classes are stated on code points. -/

def isAsciiAlphaNat (n : Nat) : Bool := (65 ≤ n && n ≤ 90) || (97 ≤ n && n ≤ 122)

def isAsciiDigitNat (n : Nat) : Bool := 48 ≤ n && n ≤ 57

def isRegexAlnum (c : Char) : Bool := isAsciiAlphaNat c.toNat || isAsciiDigitNat c.toNat

/-- The class `[A-Za-z0-9_'+\-\.]` of the email regex's local part. -/
def isLocalChar (c : Char) : Bool :=
  isRegexAlnum c || c.toNat = 95 || c.toNat = 39 || c.toNat = 43 ||
  c.toNat = 45 || c.toNat = 46

/-- The class `[A-Za-z0-9_+-]` required of the character just before `@`. -/
def isLocalEndChar (c : Char) : Bool :=
  isRegexAlnum c || c.toNat = 95 || c.toNat = 43 || c.toNat = 45

/-- The class `[A-Za-z0-9\-]` of domain-label tail characters. -/
def isLabelChar (c : Char) : Bool := isRegexAlnum c || c.toNat = 45

/-- Split a character list at every occurrence of `sep`
(the semantics of `String.split` on a one-character separator). -/
def splitOnChar (sep : Char) : List Char → List (List Char)
  | [] => [[]]
  | c :: cs =>
    match splitOnChar sep cs with
    | [] => [[]]
    | h :: t => if c = sep then [] :: h :: t else (c :: h) :: t

/-- Does the list contain two consecutive dots (the `(?!.*\.\.)` lookahead)? -/
def hasDoubleDot : List Char → Bool
  | c1 :: c2 :: rest => (c1.toNat = 46 && c2.toNat = 46) || hasDoubleDot (c2 :: rest)
  | _ => false

/-- `([A-Za-z0-9_'+\-\.]*)[A-Za-z0-9_+-]`: nonempty, all characters in the local
class, last character in the restricted end class. -/
def localPartOk (l : List Char) : Bool :=
  match l.getLast? with
  | none => false
  | some c => l.all isLocalChar && isLocalEndChar c

/-- `[A-Za-z0-9][A-Za-z0-9\-]*`: a domain label before a dot. -/
def labelOk (l : List Char) : Bool :=
  match l with
  | [] => false
  | c :: cs => isRegexAlnum c && cs.all isLabelChar

/-- `[A-Za-z]{2,}`: the final label. -/
def tldOk (l : List Char) : Bool :=
  2 ≤ l.length && l.all (fun c => isAsciiAlphaNat c.toNat)

/-- `([A-Za-z0-9][A-Za-z0-9\-]*\.)+[A-Za-z]{2,}`: at least one dot, every label
before a dot is `labelOk`, the final label is `tldOk`. -/
def domainOk (d : List Char) : Bool :=
  let labels := splitOnChar (Char.ofNat 46) d
  match labels.getLast? with
  | none => false
  | some t => 2 ≤ labels.length && labels.dropLast.all labelOk && tldOk t

def startsWithDot : List Char → Bool
  | c :: _ => c.toNat = 46
  | [] => false

/-- The zod v4 default email regex as a decision procedure.  Since neither the
local class nor the domain classes contain `@`, a match decomposes the string
at its unique `@`. -/
def emailMatches (e : String) : Bool :=
  (match splitOnChar (Char.ofNat 64) e.toList with
   | [loc, dom] => localPartOk loc && domainOk dom
   | _ => false)
  && !startsWithDot e.toList && !hasDoubleDot e.toList

/-! ## Errors

`ValidationError` (domain/entities/validation-error.entity.ts) extends `Error`;
plain `new Error(msg)` is used by the use cases and the Task entity; Firebase
Auth rejections carry a `code` string.  One sum type hosts all three. -/

inductive DomainError where
  | validation (message : String)
  | err (message : String)
  | authError (code : String)
deriving DecidableEq, Repr

/-! ## Entities -/

/-- `User` (user.entity.ts): `id`, `email`, `createdAt` with getters only. -/
structure User where
  id : String
  email : String
  createdAt : Nat
deriving DecidableEq, Repr

/-- The `User` constructor: `User.emailSchema.safeParse(email)` must succeed
(`z.email({ message: "Formato de email inválido" })`), then the email is stored
lowercased (`this._email = email.toLowerCase()`); on failure it throws
`new ValidationError(validationResult.error.issues[0].message)`. -/
def User.make (id email : String) (createdAt : Nat) : Except DomainError User :=
  if emailMatches email then
    .ok { id := id, email := jsToLower email, createdAt := createdAt }
  else
    .error (.validation "Formato de email inválido")

/-- `Task` (task.entity.ts). -/
structure Task where
  id : String
  title : String
  description : String
  completed : Bool
  createdAt : Nat
  userId : String
deriving DecidableEq, Repr

/-- The `Task` constructor.  `titleSchema = z.string().min(1).trim()`: zod runs
the checks in declaration order, so `min(1)` sees the *untrimmed* title and the
`trim()` transform is applied afterwards to produce the stored value.
`userIdSchema = z.string().min(1)`.  `descriptionSchema = z.string().trim()`
never fails.  Failures throw plain `Error`s with the first issue's message. -/
def Task.make (id title description : String) (completed : Bool) (createdAt : Nat)
    (userId : String) : Except DomainError Task :=
  if title.length < 1 then
    .error (.err "El título es requerido y no puede estar vacío.")
  else if userId.length < 1 then
    .error (.err "El userId es requerido.")
  else
    .ok { id := id, title := jsTrim title, description := jsTrim description,
          completed := completed, createdAt := createdAt, userId := userId }

/-! ## Stored documents and `fromObject` reconstruction

A Firestore document field is `none` when it is missing (or `null`): the
reconstruction guards `!field || typeof field !== "string"` also reject the
empty string, which is falsy in JavaScript. -/

structure StoredTask where
  title : Option String
  description : Option String
  completed : Option Bool
  createdAt : Option Nat
  userId : Option String
deriving DecidableEq, Repr

/-- `Task.fromObject`: requires `id`, `title`, `userId` to be present, nonempty
strings and `createdAt` to be a Firestore timestamp; missing `description`
defaults to `""` and missing `completed` to `false`; then delegates to the
validating constructor. -/
def Task.fromObject (id : String) (d : StoredTask) : Except DomainError Task :=
  if id = "" then .error (.err "El ID es requerido.")
  else
    match d.title with
    | none => .error (.err "El título es requerido.")
    | some title =>
      if title = "" then .error (.err "El título es requerido.")
      else
        match d.userId with
        | none => .error (.err "El userId es requerido.")
        | some userId =>
          if userId = "" then .error (.err "El userId es requerido.")
          else
            match d.createdAt with
            | none => .error (.err "La fecha de creación (createdAt) es inválida.")
            | some createdAt =>
              Task.make id title (d.description.getD "") (d.completed.getD false)
                createdAt userId

structure StoredUser where
  email : Option String
  createdAt : Option Nat
deriving DecidableEq, Repr

/-- `User.fromObject`: requires `id` and `email` to be present, nonempty strings
and `createdAt` to be a Firestore timestamp, then delegates to the validating
constructor. -/
def User.fromObject (id : String) (d : StoredUser) : Except DomainError User :=
  if id = "" then .error (.err "El ID es requerido y debe ser un string.")
  else
    match d.email with
    | none => .error (.err "El email es requerido y debe ser un string.")
    | some email =>
      if email = "" then .error (.err "El email es requerido y debe ser un string.")
      else
        match d.createdAt with
        | none => .error (.err "La fecha de creación (createdAt) es inválida o no existe.")
        | some createdAt => User.make id email createdAt

/-! ## Firestore collection models

A collection is a list of `(documentId, document)` pairs in document-id order;
`add` appends with a fresh increasing id, which is how the adapters observe
Firestore (queries without an explicit order are returned in id order). -/

structure TaskStore where
  docs : List (String × StoredTask)
  nextId : Nat
deriving DecidableEq, Repr

structure UserStore where
  docs : List (String × StoredUser)
  nextId : Nat
deriving DecidableEq, Repr

def taskDocId (n : Nat) : String := "task-doc-" ++ toString n

def userDocId (n : Nat) : String := "user-doc-" ++ toString n

/-! ## FSTaskRepository (fs.task.repository.ts) -/

/-- `create`: `collection.add({title, description, completed, createdAt, userId})`
followed by `new Task(docRef.id, ...)` — the write happens first, and the
returned entity goes through the validating constructor again. -/
def FSTaskRepository.create (t : Task) (s : TaskStore) :
    Except DomainError Task × TaskStore :=
  let docId := taskDocId s.nextId
  let stored : StoredTask :=
    ⟨some t.title, some t.description, some t.completed, some t.createdAt, some t.userId⟩
  (Task.make docId t.title t.description t.completed t.createdAt t.userId,
   { docs := s.docs ++ [(docId, stored)], nextId := s.nextId + 1 })

/-- The Firestore query `where("userId", "==", userId).orderBy("createdAt", "asc")`
matches exactly the documents whose `userId` field equals the argument; an
`orderBy` on `createdAt` additionally drops documents missing that field. -/
def taskQueryMatch (userId : String) (p : String × StoredTask) : Bool :=
  p.2.userId = some userId && p.2.createdAt.isSome

/-- Comparison used by the `orderBy("createdAt", "asc")` sort. -/
def taskDocLE (p q : String × StoredTask) : Bool :=
  p.2.createdAt.getD 0 ≤ q.2.createdAt.getD 0

/-- `findByUserId`: run the filtered ordered query, reconstruct each document
with `Task.fromObject` inside a `try`, map failures to `null` and filter the
`null`s out (the corrupt-record skip). -/
def FSTaskRepository.findByUserId (userId : String) (s : TaskStore) : List Task :=
  ((s.docs.filter (taskQueryMatch userId)).mergeSort taskDocLE).filterMap
    (fun p => (Task.fromObject p.1 p.2).toOption)

/-- `findById`: missing document gives `null`; a document that exists but fails
`Task.fromObject` is logged and also gives `null`. -/
def FSTaskRepository.findById (id : String) (s : TaskStore) : Option Task :=
  match s.docs.find? (fun p => p.1 = id) with
  | none => none
  | some (_, d) => (Task.fromObject id d).toOption

/-- `update`: `docRef.update({title, description, completed})` rewrites exactly
those three fields of the existing document (Firestore rejects the update when
the document does not exist) and returns the entity it was given. -/
def FSTaskRepository.update (t : Task) (s : TaskStore) :
    Except DomainError Task × TaskStore :=
  let rewrite : String × StoredTask → String × StoredTask := fun p =>
    if p.1 = t.id then
      (p.1, { p.2 with title := some t.title
                       description := some t.description
                       completed := some t.completed })
    else p
  if s.docs.any (fun p => p.1 = t.id) then
    (.ok t, { s with docs := s.docs.map rewrite })
  else
    (.error (.err "NOT_FOUND"), s)

/-- The repository's `delete` method: `collection.doc(id).delete()`, which is
idempotent. -/
def FSTaskRepository.deleteById (id : String) (s : TaskStore) : TaskStore :=
  { s with docs := s.docs.filter (fun p => p.1 ≠ id) }

/-! ## FSUserRepository (fs.user.repository.ts) -/

/-- `create`: `collection.add({email, createdAt})` then
`new User(docRef.id, user.email, user.createdAt)`. -/
def FSUserRepository.create (u : User) (s : UserStore) :
    Except DomainError User × UserStore :=
  let docId := userDocId s.nextId
  (User.make docId u.email u.createdAt,
   { docs := s.docs ++ [(docId, ⟨some u.email, some u.createdAt⟩)], nextId := s.nextId + 1 })

/-- `findByEmail`: `where("email", "==", email).limit(1)` — the first document
(in id order) whose stored `email` field equals the *raw* argument; a matching
document that fails `User.fromObject` is logged and reported as `null`. -/
def FSUserRepository.findByEmail (email : String) (s : UserStore) : Option User :=
  match s.docs.find? (fun p => p.2.email = some email) with
  | none => none
  | some (docId, d) => (User.fromObject docId d).toOption

/-- `findById`, with the same corrupt-record-to-`null` behaviour as the task
repository. -/
def FSUserRepository.findById (id : String) (s : UserStore) : Option User :=
  match s.docs.find? (fun p => p.1 = id) with
  | none => none
  | some (_, d) => (User.fromObject id d).toOption

/-! ## Repository interfaces (domain/repositories)

`ITaskRepository` / `IUserRepository` as capability records over an abstract
state `σ`: reads are pure queries of the state, mutations return the new state.
Both the Firestore adapters above and the in-memory mocks of the unit tests
instantiate these. -/

structure ITaskRepository (σ : Type) where
  findById : String → σ → Option Task
  findByUserId : String → σ → List Task
  create : Task → σ → Except DomainError Task × σ
  update : Task → σ → Except DomainError Task × σ
  deleteById : String → σ → σ

structure IUserRepository (σ : Type) where
  findById : String → σ → Option User
  findByEmail : String → σ → Option User
  create : User → σ → Except DomainError User × σ

/-- The Firestore-backed task repository as an `ITaskRepository`. -/
def fsTaskRepo : ITaskRepository TaskStore where
  findById := FSTaskRepository.findById
  findByUserId := FSTaskRepository.findByUserId
  create := FSTaskRepository.create
  update := FSTaskRepository.update
  deleteById := FSTaskRepository.deleteById

/-- The Firestore-backed user repository as an `IUserRepository`. -/
def fsUserRepo : IUserRepository UserStore where
  findById := FSUserRepository.findById
  findByEmail := FSUserRepository.findByEmail
  create := FSUserRepository.create

/-- One repository invocation, recorded in the order the use case performs
them.  The trace is pure instrumentation: the values the use case computes do
not depend on it. -/
inductive RepoCall where
  | userFindById (id : String)
  | userFindByEmail (email : String)
  | userCreate (u : User)
  | taskFindById (id : String)
  | taskFindByUserId (userId : String)
  | taskCreate (t : Task)
  | taskUpdate (t : Task)
  | taskDelete (id : String)
deriving DecidableEq, Repr

/-! ## Task use cases -/

structure CreateTaskInput where
  title : String
  description : String
  userId : String
deriving DecidableEq, Repr

/-- `CreateTaskUseCase.execute`: look the owner up by id; absent owner rejects
before any task-repository call; otherwise `new Task("", title, description,
false, new Date(), userId)` (which can itself throw) is persisted via
`taskRepository.create` and the repository's result is returned. -/
def CreateTaskUseCase.execute {σu σt : Type} (userRepo : IUserRepository σu)
    (taskRepo : ITaskRepository σt) (input : CreateTaskInput) (now : Nat)
    (su : σu) (st : σt) : Except DomainError Task × σt × List RepoCall :=
  match userRepo.findById input.userId su with
  | none =>
    (.error (.err "No se puede crear una tarea para un usuario que no existe."),
     st, [.userFindById input.userId])
  | some _ =>
    match Task.make "" input.title input.description false now input.userId with
    | .error e => (.error e, st, [.userFindById input.userId])
    | .ok newTask =>
      let r := taskRepo.create newTask st
      (r.1, r.2, [.userFindById input.userId, .taskCreate newTask])

structure UpdateTaskInput where
  taskId : String
  userId : String
  title : Option String
  description : Option String
  completed : Option Bool
deriving DecidableEq, Repr

/-- `UpdateTaskUseCase.execute`: `findById`, then "Tarea no encontrada." when
absent; then "Acción no autorizada." when `existingTask.userId !== input.userId`;
then a fresh `new Task(existingTask.id, input.title ?? existingTask.title,
input.description ?? existingTask.description, input.completed ??
existingTask.completed, existingTask.createdAt, existingTask.userId)` is passed
to `taskRepository.update`. -/
def UpdateTaskUseCase.execute {σ : Type} (repo : ITaskRepository σ)
    (input : UpdateTaskInput) (s : σ) : Except DomainError Task × σ × List RepoCall :=
  match repo.findById input.taskId s with
  | none => (.error (.err "Tarea no encontrada."), s, [.taskFindById input.taskId])
  | some existingTask =>
    if existingTask.userId ≠ input.userId then
      (.error (.err "Acción no autorizada."), s, [.taskFindById input.taskId])
    else
      match Task.make existingTask.id (input.title.getD existingTask.title)
          (input.description.getD existingTask.description)
          (input.completed.getD existingTask.completed)
          existingTask.createdAt existingTask.userId with
      | .error e => (.error e, s, [.taskFindById input.taskId])
      | .ok updatedTaskEntity =>
        let r := repo.update updatedTaskEntity s
        (r.1, r.2, [.taskFindById input.taskId, .taskUpdate updatedTaskEntity])

structure DeleteTaskInput where
  taskId : String
  userId : String
deriving DecidableEq, Repr

/-- `DeleteTaskUseCase.execute`: the same not-found and ownership guards as the
update use case (in that order), then `taskRepository.delete(input.taskId)`. -/
def DeleteTaskUseCase.execute {σ : Type} (repo : ITaskRepository σ)
    (input : DeleteTaskInput) (s : σ) : Except DomainError Unit × σ × List RepoCall :=
  match repo.findById input.taskId s with
  | none => (.error (.err "Tarea no encontrada."), s, [.taskFindById input.taskId])
  | some existingTask =>
    if existingTask.userId ≠ input.userId then
      (.error (.err "Acción no autorizada."), s, [.taskFindById input.taskId])
    else
      (.ok (), repo.deleteById input.taskId s,
       [.taskFindById input.taskId, .taskDelete input.taskId])

/-- `FindByUserkUseCase.execute` (find-by-user.use-case.ts, whose class source
is bundled in the same file as the update use-case tests): look the user up by
id via `userRepository.findById`; if falsy, `throw new Error("Usuario no
encontrado.")`; otherwise return `taskRepository.findByUserId(userId)`.  The
constructor takes `(taskRepository, userRepository)` in that order. -/
def FindByUserkUseCase.execute {σu σt : Type} (taskRepo : ITaskRepository σt)
    (userRepo : IUserRepository σu) (userId : String) (su : σu) (st : σt) :
    Except DomainError (List Task) × List RepoCall :=
  match userRepo.findById userId su with
  | none => (.error (.err "Usuario no encontrado."), [.userFindById userId])
  | some _ =>
    (.ok (taskRepo.findByUserId userId st),
     [.userFindById userId, .taskFindByUserId userId])

/-! ## The identity provider (Firebase Auth)

Modelled from the spec: the Firebase Admin `auth` client (an external
collaborator, §6 of the spec) offers `getUserByEmail` (failing with an error
whose `code` is `"auth/user-not-found"` when absent, and with other codes on
infrastructure failures, modelled by the injectable `faults` table),
`createUser({uid, email})` (the caller forces the account id), and
`createCustomToken(uid)` (a fresh opaque signed credential on every call,
modelled by a strictly increasing serial). -/

structure AuthAccount where
  uid : String
  email : String
deriving DecidableEq, Repr

structure AuthToken where
  uid : String
  serial : Nat
deriving DecidableEq, Repr

structure AuthError where
  code : String
deriving DecidableEq, Repr

structure AuthService where
  accounts : List AuthAccount
  faults : List (String × String)
  tokenSerial : Nat
deriving DecidableEq, Repr

def AuthService.getUserByEmail (a : AuthService) (email : String) :
    Except AuthError AuthAccount :=
  match a.faults.find? (fun p => p.1 = email) with
  | some (_, code) => .error ⟨code⟩
  | none =>
    match a.accounts.find? (fun acc => acc.email = email) with
    | some acc => .ok acc
    | none => .error ⟨"auth/user-not-found"⟩

def AuthService.createUser (a : AuthService) (uid email : String) :
    AuthAccount × AuthService :=
  (⟨uid, email⟩, { a with accounts := a.accounts ++ [⟨uid, email⟩] })

def AuthService.createCustomToken (a : AuthService) (uid : String) :
    AuthToken × AuthService :=
  (⟨uid, a.tokenSerial⟩, { a with tokenSerial := a.tokenSerial + 1 })

/-! ## CreateOrFindUserUseCase (create-find.use-case.ts) -/

structure CreateOrFindResult where
  customToken : AuthToken
  created : Bool
deriving DecidableEq, Repr

/-- `CreateOrFindUserUseCase.execute(email)`:
1. `userRepository.findByEmail(email)`; if `null`, persist
   `new User("", email, new Date())` and set `wasUserCreatedInFS = true`;
2. `auth.getUserByEmail(email)`; on an `"auth/user-not-found"` rejection create
   `auth.createUser({uid: fsUser.id, email: fsUser.email})`; any other
   rejection is rethrown;
3. `auth.createCustomToken(uid)` for the resolved uid;
4. return `{customToken, created: wasUserCreatedInFS}`. -/
def CreateOrFindUserUseCase.execute (email : String) (now : Nat)
    (us : UserStore) (auth : AuthService) :
    Except DomainError (CreateOrFindResult × UserStore × AuthService) :=
  let step : Except DomainError (User × UserStore × Bool) :=
    match FSUserRepository.findByEmail email us with
    | some u => .ok (u, us, false)
    | none =>
      match User.make "" email now with
      | .error e => .error e
      | .ok newUser =>
        match FSUserRepository.create newUser us with
        | (.error e, _) => .error e
        | (.ok fsUser, us2) => .ok (fsUser, us2, true)
  match step with
  | .error e => .error e
  | .ok (fsUser, us2, wasCreated) =>
    let resolved : Except DomainError (String × AuthService) :=
      match auth.getUserByEmail email with
      | .ok authUser => .ok (authUser.uid, auth)
      | .error failure =>
        if failure.code = "auth/user-not-found" then
          let r := auth.createUser fsUser.id fsUser.email
          .ok (r.1.uid, r.2)
        else
          .error (.authError failure.code)
    match resolved with
    | .error e => .error e
    | .ok (uid, auth2) =>
      let r := auth2.createCustomToken uid
      .ok (⟨r.1, wasCreated⟩, us2, r.2)

/-- `FindUserByEmailUseCase.execute`: `true` iff the repository lookup is not
`null`; a pure read. -/
def FindUserByEmailUseCase.execute {σ : Type} (userRepo : IUserRepository σ)
    (email : String) (s : σ) : Bool :=
  (userRepo.findByEmail email s).isSome

/-! ## Concrete fixtures

An in-memory repository over an association list, the shape the jest mocks
give the use cases in the unit tests, plus sample data. -/

def mockTaskRepo : ITaskRepository (List (String × Task)) where
  findById := fun id s => (s.find? (fun p => p.1 = id)).map Prod.snd
  findByUserId := fun uid s => (s.filter (fun p => p.2.userId = uid)).map Prod.snd
  create := fun t s => (.ok { t with id := "task-abc" }, s ++ [("task-abc", { t with id := "task-abc" })])
  update := fun t s => (.ok t, s.map (fun p => if p.1 = t.id then (p.1, t) else p))
  deleteById := fun id s => s.filter (fun p => p.1 ≠ id)

def mockUserRepo : IUserRepository (List (String × User)) where
  findById := fun id s => (s.find? (fun p => p.1 = id)).map Prod.snd
  findByEmail := fun em s => (s.find? (fun p => p.2.email = em)).map Prod.snd
  create := fun u s => (.ok { u with id := "user-abc" }, s ++ [("user-abc", { u with id := "user-abc" })])

def sampleTask : Task :=
  { id := "t1", title := "Old", description := "d", completed := false,
    createdAt := 5, userId := "u1" }

def sampleUser : User := { id := "u1", email := "test@example.com", createdAt := 1 }

def emptyUserStore : UserStore := { docs := [], nextId := 0 }

def emptyTaskStore : TaskStore := { docs := [], nextId := 0 }

/-- An identity provider with no accounts, no injected faults. -/
def freshAuth : AuthService := { accounts := [], faults := [], tokenSerial := 0 }

def goodStoredTask : StoredTask :=
  { title := some "Primera", description := some "", completed := some false,
    createdAt := some 3, userId := some "u1" }

/-- A corrupt stored task document: the `title` field is missing. -/
def corruptStoredTask : StoredTask :=
  { title := none, description := some "", completed := some false,
    createdAt := some 7, userId := some "u1" }

def corruptTaskStore : TaskStore :=
  { docs := [("t1", goodStoredTask), ("t2", corruptStoredTask)], nextId := 2 }

/-- A corrupt stored user document: the `createdAt` field is missing. -/
def corruptUserStore : UserStore :=
  { docs := [("u1", { email := some "x@y.com", createdAt := none })], nextId := 1 }

def c3input : UpdateTaskInput :=
  { taskId := "t1", userId := "u1", title := some " New ",
    description := none, completed := none }

def c3updated : Task :=
  { id := "t1", title := "New", description := "d", completed := false,
    createdAt := 5, userId := "u1" }

/-! ## Claims -/

/-- `Task.make` succeeds exactly on a nonempty raw title and nonempty `userId`,
and then stores the trimmed title and description and the rest unchanged. -/
theorem Task.make_ok_iff {id title description : String} {completed : Bool}
    {createdAt : Nat} {userId : String} {t : Task} :
    Task.make id title description completed createdAt userId = .ok t ↔
      title ≠ "" ∧ userId ≠ "" ∧
      t = { id := id, title := jsTrim title, description := jsTrim description,
            completed := completed, createdAt := createdAt, userId := userId } := by
  unfold Task.make
  rcases Nat.lt_or_ge title.length 1 with h | h
  · have : title = "" := by
      cases title with
      | mk data => cases data with
        | nil => rfl
        | cons c cs => simp [String.length, List.length] at h
    simp [Nat.lt_irrefl, this]
  · have hne : title ≠ "" := by
      intro hcon; subst hcon; simp [String.length] at h
    have hnlt : ¬ title.length < 1 := by omega
    rcases Nat.lt_or_ge userId.length 1 with h2 | h2
    · have : userId = "" := by
        cases userId with
        | mk data => cases data with
          | nil => rfl
          | cons c cs => simp [String.length, List.length] at h2
      simp [hnlt, this]
    · have hne2 : userId ≠ "" := by
        intro hcon; subst hcon; simp [String.length] at h2
      have hnlt2 : ¬ userId.length < 1 := by omega
      simp [hnlt, hnlt2, hne, hne2, eq_comm]

/-- C1: for every Update-Task and Delete-Task invocation against any repository
implementation, a missing task id fails with "Tarea no encontrada." (the "task
not found" error) and an existing task owned by someone else fails with "Acción
no autorizada." (the "unauthorized action" error); the absent case answers
not-found without consulting any owner (existence is checked first), and in all
four failure cases the final state is the initial state and the recorded trace
is the single `findById` read — `update`/`delete` are never invoked. -/
theorem updateDelete_reject_without_mutation {σ : Type} (repo : ITaskRepository σ)
    (s : σ) (uin : UpdateTaskInput) (din : DeleteTaskInput) :
    (repo.findById uin.taskId s = none →
      UpdateTaskUseCase.execute repo uin s =
        (.error (.err "Tarea no encontrada."), s, [.taskFindById uin.taskId])) ∧
    (∀ t, repo.findById uin.taskId s = some t → t.userId ≠ uin.userId →
      UpdateTaskUseCase.execute repo uin s =
        (.error (.err "Acción no autorizada."), s, [.taskFindById uin.taskId])) ∧
    (repo.findById din.taskId s = none →
      DeleteTaskUseCase.execute repo din s =
        (.error (.err "Tarea no encontrada."), s, [.taskFindById din.taskId])) ∧
    (∀ t, repo.findById din.taskId s = some t → t.userId ≠ din.userId →
      DeleteTaskUseCase.execute repo din s =
        (.error (.err "Acción no autorizada."), s, [.taskFindById din.taskId])) := by
  refine ⟨fun h => ?_, fun t h hne => ?_, fun h => ?_, fun t h hne => ?_⟩
  · simp [UpdateTaskUseCase.execute, h]
  · simp [UpdateTaskUseCase.execute, h, hne]
  · simp [DeleteTaskUseCase.execute, h]
  · simp [DeleteTaskUseCase.execute, h, hne]

/-- Witness for C1: a non-owner updating `"t1"` is rejected without mutation,
and deleting a missing id is rejected without mutation, on the in-memory
repository. -/
theorem updateDelete_reject_without_mutation_witness :
    UpdateTaskUseCase.execute mockTaskRepo
        ⟨"t1", "u2", none, none, none⟩ [("t1", sampleTask)] =
      (.error (.err "Acción no autorizada."), [("t1", sampleTask)],
       [.taskFindById "t1"]) ∧
    DeleteTaskUseCase.execute mockTaskRepo ⟨"missing", "u1"⟩ [("t1", sampleTask)] =
      (.error (.err "Tarea no encontrada."), [("t1", sampleTask)],
       [.taskFindById "missing"]) :=
  ⟨(updateDelete_reject_without_mutation mockTaskRepo [("t1", sampleTask)]
      ⟨"t1", "u2", none, none, none⟩ ⟨"missing", "u1"⟩).2.1 sampleTask rfl (by decide),
   (updateDelete_reject_without_mutation mockTaskRepo [("t1", sampleTask)]
      ⟨"t1", "u2", none, none, none⟩ ⟨"missing", "u1"⟩).2.2.1 rfl⟩

/-- C4 (code evaluated at the failing input): the `Task` constructor *accepts*
a whitespace-only title.  `titleSchema = z.string().min(1).trim()` runs `min(1)`
on the raw string `"   "` (length 3), which passes, and only then applies the
`trim()` transform, so construction succeeds and the stored title is the empty
string — contradicting the claim (and the schema's own documentation) that an
empty-after-trim title always fails validation. -/
theorem task_make_accepts_whitespace_title :
    Task.make "" "   " "some description" false 0 "u1" =
      .ok { id := "", title := "", description := "some description",
            completed := false, createdAt := 0, userId := "u1" } ∧
    jsTrim "   " = "" ∧
    Task.make "" "" "some description" false 0 "u1" =
      .error (.err "El título es requerido y no puede estar vacío.") := by
  refine ⟨rfl, rfl, rfl⟩

theorem exceptToOption_eq_some {ε α : Type} {x : Except ε α} {a : α} :
    x.toOption = some a ↔ x = .ok a := by
  cases x <;> simp [Except.toOption]

theorem exceptToOption_eq_none {ε α : Type} {x : Except ε α} :
    x.toOption = none ↔ ∃ e, x = .error e := by
  cases x <;> simp [Except.toOption]

/-- Reading off the fields of a successful `Task.fromObject` reconstruction. -/
theorem Task.fromObject_ok_fields {id : String} {d : StoredTask} {t : Task}
    (h : Task.fromObject id d = .ok t) :
    t.id = id ∧
    (∃ title, d.title = some title ∧ title ≠ "" ∧ t.title = jsTrim title) ∧
    (∃ u, d.userId = some u ∧ u ≠ "" ∧ t.userId = u) ∧
    (∃ ca, d.createdAt = some ca ∧ t.createdAt = ca) := by
  by_cases hid : id = ""
  · simp [Task.fromObject, hid] at h
  · cases htitle : d.title with
    | none => simp [Task.fromObject, hid, htitle] at h
    | some title =>
      by_cases htne : title = ""
      · simp [Task.fromObject, hid, htitle, htne] at h
      · cases huser : d.userId with
        | none => simp [Task.fromObject, hid, htitle, htne, huser] at h
        | some userId =>
          by_cases hune : userId = ""
          · simp [Task.fromObject, hid, htitle, htne, huser, hune] at h
          · cases hca : d.createdAt with
            | none => simp [Task.fromObject, hid, htitle, htne, huser, hune, hca] at h
            | some ca =>
              have h2 : Task.make id title (d.description.getD "")
                  (d.completed.getD false) ca userId = .ok t := by
                simp only [Task.fromObject, if_neg hid, htitle, if_neg htne,
                  huser, if_neg hune, hca] at h
                exact h
              have h3 := (Task.make_ok_iff.mp h2).2.2
              subst h3
              exact ⟨rfl, ⟨title, rfl, htne, rfl⟩, ⟨userId, rfl, hune, rfl⟩,
                     ⟨ca, rfl, rfl⟩⟩

/-- C9: the list read path.  `findByUserId` returns, up to the Firestore
ordering, exactly the successful `Task.fromObject` reconstructions of the
documents matching the owner query: every validly reconstructible document of
that user is still returned, while a document whose reconstruction fails is
silently dropped (no task with its document id ever appears), and the
operation as a whole never aborts. -/
theorem findByUserId_skips_corrupt_keeps_valid (s : TaskStore) (uid : String)
    (hnodup : (s.docs.map Prod.fst).Nodup) :
    (FSTaskRepository.findByUserId uid s).Perm
      ((s.docs.filter (taskQueryMatch uid)).filterMap
        (fun p => (Task.fromObject p.1 p.2).toOption)) ∧
    (∀ p ∈ s.docs, taskQueryMatch uid p = true →
      ∀ t, Task.fromObject p.1 p.2 = .ok t →
        t ∈ FSTaskRepository.findByUserId uid s) ∧
    (∀ p ∈ s.docs, (Task.fromObject p.1 p.2).toOption = none →
      ∀ t ∈ FSTaskRepository.findByUserId uid s, t.id ≠ p.1) := by
  have hperm : (FSTaskRepository.findByUserId uid s).Perm
      ((s.docs.filter (taskQueryMatch uid)).filterMap
        (fun p => (Task.fromObject p.1 p.2).toOption)) :=
    List.Perm.filterMap _ (List.mergeSort_perm (s.docs.filter (taskQueryMatch uid)) taskDocLE)
  refine ⟨hperm, ?_, ?_⟩
  · intro p hp hmatch t hrec
    refine hperm.mem_iff.mpr (List.mem_filterMap.mpr ⟨p, List.mem_filter.mpr ⟨hp, hmatch⟩, ?_⟩)
    simp [hrec, Except.toOption]
  · intro p hp hbad t ht hido
    obtain ⟨q, hq, hqrec⟩ := List.mem_filterMap.mp (hperm.mem_iff.mp ht)
    have hqdocs : q ∈ s.docs := (List.mem_filter.mp hq).1
    have hqok : Task.fromObject q.1 q.2 = .ok t := exceptToOption_eq_some.mp hqrec
    have htid : t.id = q.1 := (Task.fromObject_ok_fields hqok).1
    have hpq : q = p :=
      List.inj_on_of_nodup_map hnodup hqdocs hp (by rw [← htid, hido])
    rw [hpq] at hqok
    rw [hqok] at hbad
    simp [Except.toOption] at hbad

/-- Witness for C9: in a store with a good document `"t1"` and a corrupt
document `"t2"` (missing title) for the same owner, the reconstructed `"t1"`
task is returned. -/
theorem findByUserId_skips_corrupt_keeps_valid_witness :
    ({ id := "t1", title := "Primera", description := "", completed := false,
       createdAt := 3, userId := "u1" } : Task) ∈
      FSTaskRepository.findByUserId "u1" corruptTaskStore :=
  (findByUserId_skips_corrupt_keeps_valid corruptTaskStore "u1" (by decide)).2.1
    ("t1", goodStoredTask) (by decide) rfl _ rfl

theorem taskDocLE_trans : ∀ a b c, taskDocLE a b = true → taskDocLE b c = true →
    taskDocLE a c = true := by
  intro a b c h1 h2
  simp only [taskDocLE, decide_eq_true_eq] at *
  omega

theorem taskDocLE_total : ∀ a b, (taskDocLE a b || taskDocLE b a) = true := by
  intro a b
  simp only [taskDocLE, Bool.or_eq_true, decide_eq_true_eq]
  omega

/-- C7: List-By-Owner.  A missing user fails with "Usuario no encontrado."
with no task query recorded; an existing user gets the repository's filtered
scan: the empty list (not an error) when the store has no documents matching
the owner, every returned task belongs to the owner, and the result is ordered
by `createdAt` ascending. -/
theorem findByUser_checks_user_then_sorted {σu : Type}
    (userRepo : IUserRepository σu) (su : σu) (userId : String) (st : TaskStore) :
    (userRepo.findById userId su = none →
      FindByUserkUseCase.execute fsTaskRepo userRepo userId su st =
        (.error (.err "Usuario no encontrado."), [.userFindById userId])) ∧
    (∀ u, userRepo.findById userId su = some u →
      FindByUserkUseCase.execute fsTaskRepo userRepo userId su st =
        (.ok (FSTaskRepository.findByUserId userId st),
         [.userFindById userId, .taskFindByUserId userId]) ∧
      (st.docs.filter (taskQueryMatch userId) = [] →
        FSTaskRepository.findByUserId userId st = []) ∧
      (FSTaskRepository.findByUserId userId st).Pairwise
        (fun a b => a.createdAt ≤ b.createdAt) ∧
      (∀ t ∈ FSTaskRepository.findByUserId userId st, t.userId = userId) ∧
      (FSTaskRepository.findByUserId userId st).Perm
        ((st.docs.filter (taskQueryMatch userId)).filterMap
          (fun p => (Task.fromObject p.1 p.2).toOption))) := by
  constructor
  · intro h
    simp [FindByUserkUseCase.execute, h]
  · intro u hu
    refine ⟨by simp [FindByUserkUseCase.execute, hu, fsTaskRepo], ?_, ?_, ?_, ?_⟩
    · intro hempty
      simp [FSTaskRepository.findByUserId, hempty]
    · have hsorted := List.sorted_mergeSort taskDocLE_trans taskDocLE_total
        (st.docs.filter (taskQueryMatch userId))
      rw [FSTaskRepository.findByUserId, List.pairwise_filterMap]
      refine hsorted.imp ?_
      intro p q hle a ha b hb
      have hav := exceptToOption_eq_some.mp ha
      have hbv := exceptToOption_eq_some.mp hb
      obtain ⟨_, _, _, ⟨cap, hcap, hcaa⟩⟩ := Task.fromObject_ok_fields hav
      obtain ⟨_, _, _, ⟨caq, hcaq, hcab⟩⟩ := Task.fromObject_ok_fields hbv
      simp only [taskDocLE, hcap, hcaq, Option.getD_some, decide_eq_true_eq] at hle
      rw [hcaa, hcab]
      exact hle
    · intro t ht
      obtain ⟨p, hp, hrec⟩ := List.mem_filterMap.mp ht
      have hpf : p ∈ st.docs.filter (taskQueryMatch userId) :=
        (List.mergeSort_perm (st.docs.filter (taskQueryMatch userId)) taskDocLE).mem_iff.mp hp
      have hmatch : taskQueryMatch userId p = true := (List.mem_filter.mp hpf).2
      have huid : p.2.userId = some userId := by
        simp only [taskQueryMatch, Bool.and_eq_true, decide_eq_true_eq] at hmatch
        exact hmatch.1
      obtain ⟨_, _, ⟨v, hv, _, hveq⟩, _⟩ :=
        Task.fromObject_ok_fields (exceptToOption_eq_some.mp hrec)
      rw [hveq]
      rw [hv] at huid
      exact (Option.some_inj.mp huid)
    · exact List.Perm.filterMap _
        (List.mergeSort_perm (st.docs.filter (taskQueryMatch userId)) taskDocLE)

/-- Witness for C7: a missing user is rejected without a task query; the
existing user `"u1"` with an empty task store gets `.ok []`. -/
theorem findByUser_checks_user_then_sorted_witness :
    FindByUserkUseCase.execute fsTaskRepo mockUserRepo "nobody"
        [("u1", sampleUser)] emptyTaskStore =
      (.error (.err "Usuario no encontrado."), [.userFindById "nobody"]) ∧
    FindByUserkUseCase.execute fsTaskRepo mockUserRepo "u1"
        [("u1", sampleUser)] emptyTaskStore =
      (.ok [], [.userFindById "u1", .taskFindByUserId "u1"]) := by
  constructor
  · exact (findByUser_checks_user_then_sorted mockUserRepo
      [("u1", sampleUser)] "nobody" emptyTaskStore).1 rfl
  · have h := (findByUser_checks_user_then_sorted mockUserRepo
      [("u1", sampleUser)] "u1" emptyTaskStore).2 sampleUser rfl
    rw [h.1, h.2.1 rfl]

theorem splitOnChar_ne_nil (sep : Char) (l : List Char) : splitOnChar sep l ≠ [] := by
  cases l with
  | nil => simp [splitOnChar]
  | cons c cs =>
    simp only [splitOnChar]
    cases h : splitOnChar sep cs with
    | nil => simp
    | cons hd tl => by_cases hc : c = sep <;> simp [hc]

/-- Every character of the split input is the separator or lies in one of the
returned segments. -/
theorem mem_splitOnChar {sep : Char} {l : List Char} {c : Char} (hc : c ∈ l) :
    c = sep ∨ ∃ p ∈ splitOnChar sep l, c ∈ p := by
  induction l with
  | nil => cases hc
  | cons a cs ih =>
    rcases List.mem_cons.mp hc with h | h
    · subst h
      by_cases ha : c = sep
      · exact .inl ha
      · refine .inr ?_
        cases hsp : splitOnChar sep cs with
        | nil => exact absurd hsp (splitOnChar_ne_nil sep cs)
        | cons hd tl =>
          exact ⟨c :: hd, by simp [splitOnChar, hsp, ha], List.mem_cons_self _ _⟩
    · rcases ih h with h1 | ⟨p, hp, hcp⟩
      · exact .inl h1
      · refine .inr ?_
        cases hsp : splitOnChar sep cs with
        | nil => exact absurd hsp (splitOnChar_ne_nil sep cs)
        | cons hd tl =>
          rw [hsp] at hp
          by_cases ha : a = sep
          · exact ⟨p, by simp [splitOnChar, hsp, ha, List.mem_cons.mp hp], hcp⟩
          · rcases List.mem_cons.mp hp with hph | hpt
            · subst hph
              exact ⟨a :: p, by simp [splitOnChar, hsp, ha], List.mem_cons_of_mem _ hcp⟩
            · exact ⟨p, by simp [splitOnChar, hsp, ha, hpt], hcp⟩

theorem labelOk_chars {q : List Char} (h : labelOk q = true) :
    ∀ c ∈ q, isLabelChar c = true := by
  cases q with
  | nil => simp [labelOk] at h
  | cons a t =>
    simp only [labelOk, Bool.and_eq_true, List.all_eq_true] at h
    intro c hc
    rcases List.mem_cons.mp hc with rfl | hct
    · simp [isLabelChar, h.1]
    · exact h.2 c hct

theorem tldOk_chars {q : List Char} (h : tldOk q = true) :
    ∀ c ∈ q, isLabelChar c = true := by
  simp only [tldOk, Bool.and_eq_true, List.all_eq_true, decide_eq_true_eq] at h
  intro c hc
  simp [isLabelChar, isRegexAlnum, h.2 c hc]

/-- Characters drawn from the email character classes are never JavaScript
whitespace. -/
theorem not_ws_of_email_classes {c : Char}
    (h : isLocalChar c = true ∨ c.toNat = 64 ∨ isLabelChar c = true) :
    isJsWhitespace c = false := by
  cases hws : isJsWhitespace c
  · rfl
  · exfalso
    simp only [isJsWhitespace, Bool.or_eq_true, Bool.and_eq_true,
      decide_eq_true_eq] at hws
    rcases h with h | h | h
    · simp only [isLocalChar, isRegexAlnum, isAsciiAlphaNat, isAsciiDigitNat,
        Bool.or_eq_true, Bool.and_eq_true, decide_eq_true_eq] at h
      omega
    · omega
    · simp only [isLabelChar, isRegexAlnum, isAsciiAlphaNat, isAsciiDigitNat,
        Bool.or_eq_true, Bool.and_eq_true, decide_eq_true_eq] at h
      omega

/-- A string accepted by the email format contains no whitespace characters. -/
theorem emailMatches_no_ws {e : String} (h : emailMatches e = true) :
    ∀ c ∈ e.toList, isJsWhitespace c = false := by
  have h1 : (match splitOnChar (Char.ofNat 64) e.toList with
      | [loc, dom] => localPartOk loc && domainOk dom
      | _ => false) = true := by
    simp only [emailMatches, Bool.and_eq_true] at h
    exact h.1.1
  cases hsp : splitOnChar (Char.ofNat 64) e.toList with
  | nil => rw [hsp] at h1; simp at h1
  | cons loc rest =>
    cases rest with
    | nil => rw [hsp] at h1; simp at h1
    | cons dom rest2 =>
      cases rest2 with
      | cons x xs => rw [hsp] at h1; simp at h1
      | nil =>
        rw [hsp] at h1
        simp only [Bool.and_eq_true] at h1
        intro c hc
        rcases @mem_splitOnChar (Char.ofNat 64) _ _ hc with rfl | ⟨p, hp, hcp⟩
        · exact not_ws_of_email_classes (.inr (.inl rfl))
        · rw [hsp] at hp
          rcases List.mem_cons.mp hp with rfl | hpd
          · -- c is in the local part
            have hall : ∀ x ∈ p, isLocalChar x = true := by
              have hl := h1.1
              unfold localPartOk at hl
              cases hlast : p.getLast? with
              | none => rw [hlast] at hl; simp at hl
              | some z =>
                rw [hlast] at hl
                simp only [Bool.and_eq_true, List.all_eq_true] at hl
                exact hl.1
            exact not_ws_of_email_classes (.inl (hall c hcp))
          · have hpd2 : p = dom := by simpa using hpd
            rw [hpd2] at hcp
            -- c is in the domain part
            have hd := h1.2
            unfold domainOk at hd
            simp only [] at hd
            cases hlast : (splitOnChar (Char.ofNat 46) dom).getLast? with
            | none => rw [hlast] at hd; simp at hd
            | some tl =>
              rw [hlast] at hd
              simp only [Bool.and_eq_true, List.all_eq_true, decide_eq_true_eq] at hd
              rcases @mem_splitOnChar (Char.ofNat 46) _ _ hcp with rfl | ⟨q, hq, hcq⟩
              · exact not_ws_of_email_classes (.inl (by simp [isLocalChar]))
              · have hne : splitOnChar (Char.ofNat 46) dom ≠ [] :=
                  splitOnChar_ne_nil _ _
                have hsplit := List.dropLast_append_getLast hne
                have hlast2 : (splitOnChar (Char.ofNat 46) dom).getLast hne = tl := by
                  rw [← Option.some_inj, ← List.getLast?_eq_getLast _ hne, hlast]
                rw [← hsplit] at hq
                rcases List.mem_append.mp hq with hq1 | hq2
                · exact not_ws_of_email_classes
                    (.inr (.inr (labelOk_chars (hd.1.2 q hq1) c hcq)))
                · have : q = tl := by
                    rw [hlast2] at hq2
                    simpa using hq2
                  subst this
                  exact not_ws_of_email_classes (.inr (.inr (tldOk_chars hd.2 c hcq)))

theorem dropWhile_eq_self_of_not {p : Char → Bool} {l : List Char}
    (h : ∀ c ∈ l, p c = false) : l.dropWhile p = l := by
  cases l with
  | nil => rfl
  | cons a cs => simp [List.dropWhile_cons, h a (List.mem_cons_self a cs)]

/-- `trim` is the identity on whitespace-free strings. -/
theorem jsTrim_eq_self_of_no_ws {s : String}
    (h : ∀ c ∈ s.toList, isJsWhitespace c = false) : jsTrim s = s := by
  unfold jsTrim
  rw [dropWhile_eq_self_of_not h,
      dropWhile_eq_self_of_not (fun c hc => h c (List.mem_reverse.mp hc)),
      List.reverse_reverse]
  rfl

/-- C8: constructing a `User` from any email accepted by the format rule
succeeds and stores `lowercase(trim(email))` (an accepted email has no
surrounding whitespace, so this is also plain `lowercase(email)` as the code
computes it); any rejected email fails with the `ValidationError` carrying the
single email rule's message. -/
theorem user_make_normalizes_email (id : String) (createdAt : Nat) (e : String) :
    (emailMatches e = true →
      User.make id e createdAt =
        .ok { id := id, email := jsToLower (jsTrim e), createdAt := createdAt }) ∧
    (emailMatches e = false →
      User.make id e createdAt = .error (.validation "Formato de email inválido")) := by
  constructor
  · intro h
    rw [User.make, if_pos h, jsTrim_eq_self_of_no_ws (emailMatches_no_ws h)]
  · intro h
    rw [User.make, if_neg (by simp [h])]

/-- Witness for C8: `"User@Example.COM"` is accepted and stored as
`"user@example.com"`; `"not an email"` is rejected with the validation
message. -/
theorem user_make_normalizes_email_witness :
    User.make "idX" "User@Example.COM" 4 =
      .ok { id := "idX", email := "user@example.com", createdAt := 4 } ∧
    User.make "idX" "not an email" 4 =
      .error (.validation "Formato de email inválido") :=
  ⟨(user_make_normalizes_email "idX" 4 "User@Example.COM").1 rfl,
   (user_make_normalizes_email "idX" 4 "not an email").2 rfl⟩

/-- C2: Create-Task against any repositories: when the user-id lookup reports
absent, the use case fails with the "user does not exist" error and no task
repository call is made; when the user exists and the entity validation accepts
the fields, `taskRepository.create` is invoked exactly once (the trace records
a single `taskCreate`) and, since the repository contract only assigns the id,
the returned task has `completed = false`. -/
theorem createTask_requires_user_and_creates_once {σu σt : Type}
    (userRepo : IUserRepository σu) (taskRepo : ITaskRepository σt)
    (input : CreateTaskInput) (now : Nat) (su : σu) (st : σt)
    (hcreate : ∀ t s, ∃ i, (taskRepo.create t s).1 = .ok { t with id := i }) :
    (userRepo.findById input.userId su = none →
      CreateTaskUseCase.execute userRepo taskRepo input now su st =
        (.error (.err "No se puede crear una tarea para un usuario que no existe."),
         st, [.userFindById input.userId])) ∧
    (∀ u nt, userRepo.findById input.userId su = some u →
      Task.make "" input.title input.description false now input.userId = .ok nt →
      ∃ created,
        CreateTaskUseCase.execute userRepo taskRepo input now su st =
          (.ok created, (taskRepo.create nt st).2,
           [.userFindById input.userId, .taskCreate nt]) ∧
        created.completed = false) := by
  constructor
  · intro h
    simp [CreateTaskUseCase.execute, h]
  · intro u nt hu hmk
    obtain ⟨i, hi⟩ := hcreate nt st
    have hcomp : nt.completed = false := by
      rw [Task.make_ok_iff] at hmk
      rw [hmk.2.2]
    refine ⟨{ nt with id := i }, ?_, hcomp⟩
    simp [CreateTaskUseCase.execute, hu, hmk, hi]

/-- Witness for C2: creating `"Buy milk"` for the existing user `"u1"` issues
exactly one repository create and returns `completed = false`; creating for a
missing user is rejected with no create call. -/
theorem createTask_requires_user_and_creates_once_witness :
    CreateTaskUseCase.execute mockUserRepo mockTaskRepo
        ⟨"Buy milk", "", "missing-user"⟩ 9 [("u1", sampleUser)] [] =
      (.error (.err "No se puede crear una tarea para un usuario que no existe."),
       [], [.userFindById "missing-user"]) ∧
    ∃ created,
      CreateTaskUseCase.execute mockUserRepo mockTaskRepo
          ⟨"Buy milk", "", "u1"⟩ 9 [("u1", sampleUser)] [] =
        (.ok created, [("task-abc",
           { id := "task-abc", title := "Buy milk", description := "",
             completed := false, createdAt := 9, userId := "u1" })],
         [.userFindById "u1",
          .taskCreate { id := "", title := "Buy milk", description := "",
                        completed := false, createdAt := 9, userId := "u1" }]) ∧
      created.completed = false :=
  ⟨(createTask_requires_user_and_creates_once mockUserRepo mockTaskRepo
      ⟨"Buy milk", "", "missing-user"⟩ 9 [("u1", sampleUser)] []
      (fun _ _ => ⟨"task-abc", rfl⟩)).1 rfl,
   (createTask_requires_user_and_creates_once mockUserRepo mockTaskRepo
      ⟨"Buy milk", "", "u1"⟩ 9 [("u1", sampleUser)] []
      (fun _ _ => ⟨"task-abc", rfl⟩)).2 sampleUser
      { id := "", title := "Buy milk", description := "", completed := false,
        createdAt := 9, userId := "u1" } rfl rfl⟩

/-- C3 counterexample: the claim says the task handed to `update` carries "the
input's value" for a provided field, but the entity constructor trims it: with
existing title `"Old"` and provided title `" New "`, the task passed to the
repository's update operation has title `"New"`, not `" New "`. -/
theorem update_passes_trimmed_not_raw_title :
    (UpdateTaskUseCase.execute mockTaskRepo c3input [("t1", sampleTask)]).2.2 =
      [RepoCall.taskFindById "t1", RepoCall.taskUpdate c3updated] ∧
    c3input.title = some " New " ∧ c3updated.title = "New" ∧ "New" ≠ " New " :=
  ⟨rfl, rfl, rfl, by decide⟩

/-- C3 as amended: on the success path the entity passed to `update` reuses the
existing task's `id`, `createdAt`, `userId` unchanged, takes `completed` from
the input when provided (else the prior value), and takes the *trimmed*
provided title/description when provided — which is the raw input value
whenever the input carries no surrounding whitespace — and the prior value when
omitted (prior values are already trimmed, the constructor having produced
them). -/
theorem update_builds_entity_from_existing {σ : Type} (repo : ITaskRepository σ)
    (input : UpdateTaskInput) (s : σ) (t u : Task)
    (hfind : repo.findById input.taskId s = some t)
    (howner : t.userId = input.userId)
    (hmk : Task.make t.id (input.title.getD t.title)
        (input.description.getD t.description) (input.completed.getD t.completed)
        t.createdAt t.userId = .ok u) :
    u.id = t.id ∧ u.createdAt = t.createdAt ∧ u.userId = t.userId ∧
    u.completed = input.completed.getD t.completed ∧
    u.title = jsTrim (input.title.getD t.title) ∧
    u.description = jsTrim (input.description.getD t.description) ∧
    (input.title = none → jsTrim t.title = t.title → u.title = t.title) ∧
    (input.description = none → jsTrim t.description = t.description →
      u.description = t.description) ∧
    (UpdateTaskUseCase.execute repo input s).2.2 =
      [.taskFindById input.taskId, .taskUpdate u] := by
  have hu := (Task.make_ok_iff.mp hmk).2.2
  subst hu
  refine ⟨rfl, rfl, rfl, rfl, rfl, rfl, ?_, ?_, ?_⟩
  · intro hnone htrim; rw [hnone]; exact htrim
  · intro hnone htrim; rw [hnone]; exact htrim
  · have hcond : ¬ t.userId ≠ input.userId := by simp [howner]
    simp only [UpdateTaskUseCase.execute, hfind, if_neg hcond]
    rw [hmk]

/-- Witness for C3 (amended): concrete partial update providing only the title;
`createdAt`, `userId`, `completed`, `description` keep the prior values and the
update call receives exactly the built entity. -/
theorem update_builds_entity_from_existing_witness :
    c3updated.id = sampleTask.id ∧ c3updated.createdAt = sampleTask.createdAt ∧
    c3updated.userId = sampleTask.userId ∧
    c3updated.description = sampleTask.description ∧
    (UpdateTaskUseCase.execute mockTaskRepo c3input [("t1", sampleTask)]).2.2 =
      [.taskFindById "t1", .taskUpdate c3updated] := by
  have h := update_builds_entity_from_existing mockTaskRepo c3input
    [("t1", sampleTask)] sampleTask c3updated rfl rfl rfl
  exact ⟨h.1, h.2.1, h.2.2.1, h.2.2.2.2.2.2.2.1 rfl rfl, h.2.2.2.2.2.2.2.2⟩

/-- C10: the corrupt-record skip extends to point lookups.  If the Firestore
document for an id exists but fails entity reconstruction, `findById` answers
`null` (for both the task and the user repository), so Update-Task and
Delete-Task on a corrupt stored task fail with "Tarea no encontrada." exactly
as for a nonexistent one, with no mutation. -/
theorem corrupt_record_point_lookup_absent (ts : TaskStore) (us : UserStore)
    (uid : String) (uin : UpdateTaskInput) (din : DeleteTaskInput) :
    (∀ sd, ts.docs.find? (fun p => p.1 = uin.taskId) = some (uin.taskId, sd) →
      (Task.fromObject uin.taskId sd).toOption = none →
      FSTaskRepository.findById uin.taskId ts = none ∧
      UpdateTaskUseCase.execute fsTaskRepo uin ts =
        (.error (.err "Tarea no encontrada."), ts, [.taskFindById uin.taskId])) ∧
    (∀ sd, ts.docs.find? (fun p => p.1 = din.taskId) = some (din.taskId, sd) →
      (Task.fromObject din.taskId sd).toOption = none →
      FSTaskRepository.findById din.taskId ts = none ∧
      DeleteTaskUseCase.execute fsTaskRepo din ts =
        (.error (.err "Tarea no encontrada."), ts, [.taskFindById din.taskId])) ∧
    (∀ sd, us.docs.find? (fun p => p.1 = uid) = some (uid, sd) →
      (User.fromObject uid sd).toOption = none →
      FSUserRepository.findById uid us = none) := by
  refine ⟨fun sd hf hb => ?_, fun sd hf hb => ?_, fun sd hf hb => ?_⟩
  · have h1 : FSTaskRepository.findById uin.taskId ts = none := by
      simp [FSTaskRepository.findById, hf, hb]
    have h2 : fsTaskRepo.findById uin.taskId ts = none := h1
    exact ⟨h1, by simp [UpdateTaskUseCase.execute, h2]⟩
  · have h1 : FSTaskRepository.findById din.taskId ts = none := by
      simp [FSTaskRepository.findById, hf, hb]
    have h2 : fsTaskRepo.findById din.taskId ts = none := h1
    exact ⟨h1, by simp [DeleteTaskUseCase.execute, h2]⟩
  · simp [FSUserRepository.findById, hf, hb]

/-- Witness for C10: in a store holding a document `"t2"` with a missing
`title` field, `findById "t2"` is `null` and updating/deleting `"t2"` answers
"Tarea no encontrada."; likewise a user document with an invalid `createdAt`
is reported absent. -/
theorem corrupt_record_point_lookup_absent_witness :
    (FSTaskRepository.findById "t2" corruptTaskStore = none ∧
     UpdateTaskUseCase.execute fsTaskRepo ⟨"t2", "u1", none, none, none⟩
         corruptTaskStore =
       (.error (.err "Tarea no encontrada."), corruptTaskStore,
        [.taskFindById "t2"])) ∧
    (FSTaskRepository.findById "t2" corruptTaskStore = none ∧
     DeleteTaskUseCase.execute fsTaskRepo ⟨"t2", "u1"⟩ corruptTaskStore =
       (.error (.err "Tarea no encontrada."), corruptTaskStore,
        [.taskFindById "t2"])) ∧
    FSUserRepository.findById "u1" corruptUserStore = none :=
  ⟨(corrupt_record_point_lookup_absent corruptTaskStore corruptUserStore "u1"
      ⟨"t2", "u1", none, none, none⟩ ⟨"t2", "u1"⟩).1 corruptStoredTask rfl rfl,
   (corrupt_record_point_lookup_absent corruptTaskStore corruptUserStore "u1"
      ⟨"t2", "u1", none, none, none⟩ ⟨"t2", "u1"⟩).2.1 corruptStoredTask rfl rfl,
   (corrupt_record_point_lookup_absent corruptTaskStore corruptUserStore "u1"
      ⟨"t2", "u1", none, none, none⟩ ⟨"t2", "u1"⟩).2.2
     { email := some "x@y.com", createdAt := none } rfl rfl⟩

theorem charOfNat_toNat {n : Nat} (h : n < 55296) : (Char.ofNat n).toNat = n := by
  have hv : n.isValidChar := Or.inl h
  simp [Char.ofNat, Char.toNat, hv, Char.ofNatAux, UInt32.toNat, UInt32.ofNatCore]

theorem char_eq_of_toNat {a b : Char} (h : a.toNat = b.toNat) : a = b :=
  Char.eq_of_val_eq (UInt32.toNat.inj h)

theorem jsLowerChar_toNat (c : Char) :
    (jsLowerChar c).toNat =
      if 65 ≤ c.toNat ∧ c.toNat ≤ 90 then c.toNat + 32 else c.toNat := by
  unfold jsLowerChar
  by_cases h : 65 ≤ c.toNat ∧ c.toNat ≤ 90
  · rw [if_pos h, if_pos h]
    exact charOfNat_toNat (by omega)
  · rw [if_neg h, if_neg h]

theorem jsLowerChar_idem (c : Char) : jsLowerChar (jsLowerChar c) = jsLowerChar c := by
  apply char_eq_of_toNat
  rw [jsLowerChar_toNat]
  have ht := jsLowerChar_toNat c
  by_cases h : 65 ≤ c.toNat ∧ c.toNat ≤ 90
  · rw [if_pos h] at ht
    rw [ht, if_neg (by omega)]
  · rw [if_neg h] at ht
    rw [ht, if_neg h]

theorem jsToLower_idem (s : String) : jsToLower (jsToLower s) = jsToLower s := by
  unfold jsToLower
  have h1 : (String.mk (s.toList.map jsLowerChar)).toList = s.toList.map jsLowerChar := rfl
  rw [h1, List.map_map]
  exact congrArg String.mk
    (List.map_congr_left (fun a _ => jsLowerChar_idem a))

theorem char_eq_ofNat_iff {c : Char} {n : Nat} (h : n < 55296) :
    c = Char.ofNat n ↔ c.toNat = n := by
  constructor
  · intro hc; rw [hc]; exact charOfNat_toNat h
  · intro hc; exact char_eq_of_toNat (by rw [hc, charOfNat_toNat h])

/-- Lowercasing fixes every code point below `a`..`z`'s uppercase source range,
so separator characters (`@`, `.`) are preserved and reflected. -/
theorem jsLowerChar_sep_iff {n : Nat} (hlow : n < 65) (hval : n < 55296) (c : Char) :
    jsLowerChar c = Char.ofNat n ↔ c = Char.ofNat n := by
  rw [char_eq_ofNat_iff hval, char_eq_ofNat_iff hval, jsLowerChar_toNat]
  by_cases h : 65 ≤ c.toNat ∧ c.toNat ≤ 90
  · rw [if_pos h]; omega
  · rw [if_neg h]

theorem jsLowerChar_toNat46_iff (c : Char) :
    ((jsLowerChar c).toNat = 46) ↔ (c.toNat = 46) := by
  rw [jsLowerChar_toNat]
  by_cases h : 65 ≤ c.toNat ∧ c.toNat ≤ 90
  · rw [if_pos h]; omega
  · rw [if_neg h]

theorem splitOnChar_map_lower {sep : Char}
    (hsep : ∀ c, jsLowerChar c = sep ↔ c = sep) (l : List Char) :
    splitOnChar sep (l.map jsLowerChar) =
      (splitOnChar sep l).map (List.map jsLowerChar) := by
  induction l with
  | nil => rfl
  | cons a cs ih =>
    cases hsp : splitOnChar sep cs with
    | nil => exact absurd hsp (splitOnChar_ne_nil sep cs)
    | cons hd tl =>
      rw [hsp] at ih
      simp only [List.map_cons, splitOnChar, ih, hsp]
      by_cases ha : a = sep
      · rw [if_pos ((hsep a).mpr ha), if_pos ha]
        simp
      · rw [if_neg (fun hcon => ha ((hsep a).mp hcon)), if_neg ha]
        simp

theorem startsWithDot_map_lower (l : List Char) :
    startsWithDot (l.map jsLowerChar) = startsWithDot l := by
  cases l with
  | nil => rfl
  | cons a cs =>
    simp only [List.map_cons, startsWithDot]
    exact decide_eq_decide.mpr (jsLowerChar_toNat46_iff a)

theorem hasDoubleDot_map_lower (l : List Char) :
    hasDoubleDot (l.map jsLowerChar) = hasDoubleDot l := by
  induction l with
  | nil => rfl
  | cons a cs ih =>
    cases cs with
    | nil => rfl
    | cons b cs2 =>
      simp only [List.map_cons] at ih ⊢
      simp only [hasDoubleDot, ih]
      congr 1
      rw [decide_eq_decide.mpr (jsLowerChar_toNat46_iff a),
          decide_eq_decide.mpr (jsLowerChar_toNat46_iff b)]

theorem isRegexAlnum_lower {c : Char} (h : isRegexAlnum c = true) :
    isRegexAlnum (jsLowerChar c) = true := by
  simp only [isRegexAlnum, isAsciiAlphaNat, isAsciiDigitNat, Bool.or_eq_true,
    Bool.and_eq_true, decide_eq_true_eq] at h ⊢
  rw [jsLowerChar_toNat]
  by_cases hu : 65 ≤ c.toNat ∧ c.toNat ≤ 90
  · rw [if_pos hu]; omega
  · rw [if_neg hu]; omega

theorem isLocalChar_lower {c : Char} (h : isLocalChar c = true) :
    isLocalChar (jsLowerChar c) = true := by
  simp only [isLocalChar, isRegexAlnum, isAsciiAlphaNat, isAsciiDigitNat,
    Bool.or_eq_true, Bool.and_eq_true, decide_eq_true_eq] at h ⊢
  rw [jsLowerChar_toNat]
  by_cases hu : 65 ≤ c.toNat ∧ c.toNat ≤ 90
  · rw [if_pos hu]; omega
  · rw [if_neg hu]; omega

theorem isLocalEndChar_lower {c : Char} (h : isLocalEndChar c = true) :
    isLocalEndChar (jsLowerChar c) = true := by
  simp only [isLocalEndChar, isRegexAlnum, isAsciiAlphaNat, isAsciiDigitNat,
    Bool.or_eq_true, Bool.and_eq_true, decide_eq_true_eq] at h ⊢
  rw [jsLowerChar_toNat]
  by_cases hu : 65 ≤ c.toNat ∧ c.toNat ≤ 90
  · rw [if_pos hu]; omega
  · rw [if_neg hu]; omega

theorem isLabelChar_lower {c : Char} (h : isLabelChar c = true) :
    isLabelChar (jsLowerChar c) = true := by
  simp only [isLabelChar, isRegexAlnum, isAsciiAlphaNat, isAsciiDigitNat,
    Bool.or_eq_true, Bool.and_eq_true, decide_eq_true_eq] at h ⊢
  rw [jsLowerChar_toNat]
  by_cases hu : 65 ≤ c.toNat ∧ c.toNat ≤ 90
  · rw [if_pos hu]; omega
  · rw [if_neg hu]; omega

theorem isAsciiAlphaNat_lower {c : Char} (h : isAsciiAlphaNat c.toNat = true) :
    isAsciiAlphaNat (jsLowerChar c).toNat = true := by
  simp only [isAsciiAlphaNat, Bool.or_eq_true, Bool.and_eq_true,
    decide_eq_true_eq] at h ⊢
  rw [jsLowerChar_toNat]
  by_cases hu : 65 ≤ c.toNat ∧ c.toNat ≤ 90
  · rw [if_pos hu]; omega
  · rw [if_neg hu]; omega

theorem localPartOk_map_lower {l : List Char} (h : localPartOk l = true) :
    localPartOk (l.map jsLowerChar) = true := by
  unfold localPartOk at h ⊢
  rw [List.getLast?_map]
  cases hl : l.getLast? with
  | none => rw [hl] at h; cases h
  | some z =>
    rw [hl] at h
    simp only [Option.map_some', Bool.and_eq_true, List.all_eq_true] at h ⊢
    refine ⟨fun x hx => ?_, isLocalEndChar_lower h.2⟩
    obtain ⟨y, hy, rfl⟩ := List.mem_map.mp hx
    exact isLocalChar_lower (h.1 y hy)

theorem labelOk_map_lower {q : List Char} (h : labelOk q = true) :
    labelOk (q.map jsLowerChar) = true := by
  cases q with
  | nil => cases h
  | cons a t =>
    simp only [labelOk, List.map_cons, Bool.and_eq_true, List.all_eq_true] at h ⊢
    refine ⟨isRegexAlnum_lower h.1, fun x hx => ?_⟩
    obtain ⟨y, hy, rfl⟩ := List.mem_map.mp hx
    exact isLabelChar_lower (h.2 y hy)

theorem tldOk_map_lower {q : List Char} (h : tldOk q = true) :
    tldOk (q.map jsLowerChar) = true := by
  simp only [tldOk, List.length_map, Bool.and_eq_true, List.all_eq_true,
    decide_eq_true_eq] at h ⊢
  refine ⟨h.1, fun x hx => ?_⟩
  obtain ⟨y, hy, rfl⟩ := List.mem_map.mp hx
  exact isAsciiAlphaNat_lower (h.2 y hy)

theorem domainOk_map_lower {d : List Char} (h : domainOk d = true) :
    domainOk (d.map jsLowerChar) = true := by
  unfold domainOk at h ⊢
  simp only [] at h ⊢
  rw [splitOnChar_map_lower (jsLowerChar_sep_iff (by omega) (by omega)),
      List.getLast?_map]
  cases hl : (splitOnChar (Char.ofNat 46) d).getLast? with
  | none => rw [hl] at h; cases h
  | some tl =>
    rw [hl] at h
    simp only [Option.map_some', List.length_map, Bool.and_eq_true,
      List.all_eq_true, decide_eq_true_eq] at h ⊢
    refine ⟨⟨h.1.1, fun x hx => ?_⟩, tldOk_map_lower h.2⟩
    rw [← List.map_dropLast] at hx
    obtain ⟨y, hy, rfl⟩ := List.mem_map.mp hx
    exact labelOk_map_lower (h.1.2 y hy)

/-- The email format is closed under lowercasing: this is what makes the
repository-create path (which re-validates the already-lowercased email inside
the constructor) succeed. -/
theorem emailMatches_lower {e : String} (h : emailMatches e = true) :
    emailMatches (jsToLower e) = true := by
  have hlist : (jsToLower e).toList = e.toList.map jsLowerChar := rfl
  unfold emailMatches at h ⊢
  rw [hlist, splitOnChar_map_lower (jsLowerChar_sep_iff (by omega) (by omega)),
      startsWithDot_map_lower, hasDoubleDot_map_lower]
  simp only [Bool.and_eq_true] at h ⊢
  refine ⟨⟨?_, h.1.2⟩, h.2⟩
  have h1 := h.1.1
  cases hsp : splitOnChar (Char.ofNat 64) e.toList with
  | nil => exact absurd hsp (splitOnChar_ne_nil _ _)
  | cons loc rest =>
    cases rest with
    | nil => rw [hsp] at h1; cases h1
    | cons dom rest2 =>
      cases rest2 with
      | cons x xs => rw [hsp] at h1; cases h1
      | nil =>
        rw [hsp] at h1
        simp only [Bool.and_eq_true] at h1
        simp only [List.map_cons, List.map_nil, Bool.and_eq_true]
        exact ⟨localPartOk_map_lower h1.1, domainOk_map_lower h1.2⟩

theorem User.make_spec {id email : String} {ca : Nat} {u : User} :
    User.make id email ca = .ok u ↔
      emailMatches email = true ∧ u = { id := id, email := jsToLower email, createdAt := ca } := by
  unfold User.make
  by_cases h : emailMatches email <;> simp [h, eq_comm]

theorem userDocId_ne_empty (n : Nat) : userDocId n ≠ "" := by
  intro h
  have h2 : (userDocId n).data = [] := by rw [h]
  unfold userDocId at h2
  rw [String.data_append] at h2
  have h3 : ("user-doc-" : String).data = [] := (List.append_eq_nil.mp h2).1
  simp at h3

/-- Shape of every successful `CreateOrFindUserUseCase.execute` run: the token
serial is the pre-state counter (and the counter advances by exactly one, so a
credential is freshly minted on every call); `created` is `true` exactly when
the email lookup missed; a hit leaves the user store untouched while a miss
appends exactly one document holding the lowercased email; and when the
identity provider misses, the account appended to it carries the persisted
user's id and email. -/
theorem createOrFind_shape (email : String) (now : Nat) (us : UserStore)
    (auth : AuthService) (r : CreateOrFindResult × UserStore × AuthService)
    (h : CreateOrFindUserUseCase.execute email now us auth = .ok r) :
    r.1.customToken.serial = auth.tokenSerial ∧
    r.2.2.tokenSerial = auth.tokenSerial + 1 ∧
    (r.1.created = true ↔ FSUserRepository.findByEmail email us = none) ∧
    (∀ u, FSUserRepository.findByEmail email us = some u →
      r.2.1 = us ∧
      (auth.getUserByEmail email = .error ⟨"auth/user-not-found"⟩ →
        r.2.2.accounts = auth.accounts ++ [⟨u.id, u.email⟩])) ∧
    (FSUserRepository.findByEmail email us = none →
      emailMatches email = true ∧
      r.2.1.docs = us.docs ++
        [(userDocId us.nextId, ⟨some (jsToLower email), some now⟩)] ∧
      r.2.1.nextId = us.nextId + 1 ∧
      (auth.getUserByEmail email = .error ⟨"auth/user-not-found"⟩ →
        r.2.2.accounts = auth.accounts ++ [⟨userDocId us.nextId, jsToLower email⟩])) := by
  cases hfb : FSUserRepository.findByEmail email us with
  | some u =>
    cases hlook : auth.getUserByEmail email with
    | ok acc =>
      have hexec : CreateOrFindUserUseCase.execute email now us auth =
          .ok (⟨⟨acc.uid, auth.tokenSerial⟩, false⟩, us,
               { auth with tokenSerial := auth.tokenSerial + 1 }) := by
        simp [CreateOrFindUserUseCase.execute, hfb, hlook,
          AuthService.createCustomToken]
      rw [hexec] at h
      obtain rfl := Except.ok.inj h
      refine ⟨rfl, rfl, by simp, ?_, ?_⟩
      · exact fun u' hu' => ⟨rfl, fun hcon => by cases hcon⟩
      · exact fun hn => by cases hn
    | error failure =>
      by_cases hcode : failure.code = "auth/user-not-found"
      · have hexec : CreateOrFindUserUseCase.execute email now us auth =
            .ok (⟨⟨u.id, auth.tokenSerial⟩, false⟩, us,
                 { accounts := auth.accounts ++ [⟨u.id, u.email⟩],
                   faults := auth.faults,
                   tokenSerial := auth.tokenSerial + 1 }) := by
          simp [CreateOrFindUserUseCase.execute, hfb, hlook, hcode,
            AuthService.createUser, AuthService.createCustomToken]
        rw [hexec] at h
        obtain rfl := Except.ok.inj h
        refine ⟨rfl, rfl, by simp, ?_, ?_⟩
        · intro u' hu'
          have hu2 : u' = u := (Option.some_inj.mp hu').symm
          subst hu2
          exact ⟨rfl, fun _ => rfl⟩
        · exact fun hn => by cases hn
      · have hexec : CreateOrFindUserUseCase.execute email now us auth =
            .error (.authError failure.code) := by
          simp [CreateOrFindUserUseCase.execute, hfb, hlook, hcode]
        rw [hexec] at h
        cases h
  | none =>
    cases hmk : emailMatches email with
    | false =>
      have hexec : CreateOrFindUserUseCase.execute email now us auth =
          .error (.validation "Formato de email inválido") := by
        simp [CreateOrFindUserUseCase.execute, hfb, User.make, hmk]
      rw [hexec] at h
      cases h
    | true =>
      have hmk2 : emailMatches (jsToLower email) = true := emailMatches_lower hmk
      have hidem := jsToLower_idem email
      cases hlook : auth.getUserByEmail email with
      | ok acc =>
        have hexec : CreateOrFindUserUseCase.execute email now us auth =
            .ok (⟨⟨acc.uid, auth.tokenSerial⟩, true⟩,
                 { docs := us.docs ++
                     [(userDocId us.nextId, ⟨some (jsToLower email), some now⟩)],
                   nextId := us.nextId + 1 },
                 { auth with tokenSerial := auth.tokenSerial + 1 }) := by
          simp [CreateOrFindUserUseCase.execute, hfb, User.make, hmk, hmk2,
            hidem, FSUserRepository.create, hlook, AuthService.createCustomToken]
        rw [hexec] at h
        obtain rfl := Except.ok.inj h
        refine ⟨rfl, rfl, by simp, ?_, ?_⟩
        · exact fun u' hu' => by cases hu'
        · exact fun _ => ⟨rfl, rfl, rfl, fun hcon => by cases hcon⟩
      | error failure =>
        by_cases hcode : failure.code = "auth/user-not-found"
        · have hexec : CreateOrFindUserUseCase.execute email now us auth =
              .ok (⟨⟨userDocId us.nextId, auth.tokenSerial⟩, true⟩,
                   { docs := us.docs ++
                       [(userDocId us.nextId, ⟨some (jsToLower email), some now⟩)],
                     nextId := us.nextId + 1 },
                   { accounts := auth.accounts ++
                       [⟨userDocId us.nextId, jsToLower email⟩],
                     faults := auth.faults,
                     tokenSerial := auth.tokenSerial + 1 }) := by
            simp [CreateOrFindUserUseCase.execute, hfb, User.make, hmk, hmk2,
              hidem, FSUserRepository.create, hlook, hcode,
              AuthService.createUser, AuthService.createCustomToken]
          rw [hexec] at h
          obtain rfl := Except.ok.inj h
          refine ⟨rfl, rfl, by simp, ?_, ?_⟩
          · exact fun u' hu' => by cases hu'
          · exact fun _ => ⟨rfl, rfl, rfl, fun _ => rfl⟩
        · have hexec : CreateOrFindUserUseCase.execute email now us auth =
              .error (.authError failure.code) := by
            simp [CreateOrFindUserUseCase.execute, hfb, User.make, hmk, hmk2,
              hidem, FSUserRepository.create, hlook, hcode]
          rw [hexec] at h
          cases h

theorem emailMatches_ne_empty {e : String} (h : emailMatches e = true) : e ≠ "" := by
  intro hcon
  subst hcon
  exact absurd h (by decide)

/-- C6: identity-provider reconciliation.  For every successful run in which
the provider lookup misses ("auth/user-not-found"): `created` is `true` iff a
new User record was persisted this invocation, and the account created at the
provider carries exactly the persisted User record's id and email (the
existing record's when the email was found, the freshly appended document's id
and lowercased email otherwise).  And a provider lookup failure with any other
code makes the whole invocation fail with exactly that error. -/
theorem createOrFind_aligns_identity (e : String) (now : Nat)
    (us : UserStore) (auth : AuthService) :
    (∀ r, CreateOrFindUserUseCase.execute e now us auth = .ok r →
      auth.getUserByEmail e = .error ⟨"auth/user-not-found"⟩ →
      (r.1.created = true ↔ FSUserRepository.findByEmail e us = none) ∧
      (∀ u, FSUserRepository.findByEmail e us = some u →
        r.2.1 = us ∧ r.2.2.accounts = auth.accounts ++ [⟨u.id, u.email⟩]) ∧
      (FSUserRepository.findByEmail e us = none →
        r.2.1.docs = us.docs ++
          [(userDocId us.nextId, ⟨some (jsToLower e), some now⟩)] ∧
        r.2.2.accounts = auth.accounts ++ [⟨userDocId us.nextId, jsToLower e⟩])) ∧
    (∀ c, auth.getUserByEmail e = .error c → c.code ≠ "auth/user-not-found" →
      emailMatches e = true →
      CreateOrFindUserUseCase.execute e now us auth = .error (.authError c.code)) := by
  constructor
  · intro r h hnf
    have hs := createOrFind_shape e now us auth r h
    refine ⟨hs.2.2.1, fun u hu => ?_, fun hn => ?_⟩
    · exact ⟨(hs.2.2.2.1 u hu).1, (hs.2.2.2.1 u hu).2 hnf⟩
    · exact ⟨(hs.2.2.2.2 hn).2.1, (hs.2.2.2.2 hn).2.2.2 hnf⟩
  · intro c hlook hcode hvalid
    cases hfb : FSUserRepository.findByEmail e us with
    | some u => simp [CreateOrFindUserUseCase.execute, hfb, hlook, hcode]
    | none =>
      simp [CreateOrFindUserUseCase.execute, hfb, User.make, hvalid,
        emailMatches_lower hvalid, FSUserRepository.create, hlook, hcode]

/-- Witness for C6: provisioning `"new@user.com"` against empty stores misses
at the provider, creates the user document `"user-doc-0"` and a provider
account with that same id and email. -/
theorem createOrFind_aligns_identity_witness :
    CreateOrFindUserUseCase.execute "new@user.com" 5 emptyUserStore freshAuth =
      .ok (⟨⟨"user-doc-0", 0⟩, true⟩,
           ⟨[("user-doc-0", ⟨some "new@user.com", some 5⟩)], 1⟩,
           ⟨[⟨"user-doc-0", "new@user.com"⟩], [], 1⟩) ∧
    (⟨[⟨"user-doc-0", "new@user.com"⟩], [], 1⟩ : AuthService).accounts =
      freshAuth.accounts ++ [⟨"user-doc-0", "new@user.com"⟩] := by
  have h := (createOrFind_aligns_identity "new@user.com" 5 emptyUserStore
      freshAuth).1
    (⟨⟨"user-doc-0", 0⟩, true⟩,
     ⟨[("user-doc-0", ⟨some "new@user.com", some 5⟩)], 1⟩,
     ⟨[⟨"user-doc-0", "new@user.com"⟩], [], 1⟩) rfl rfl
  exact ⟨rfl, (h.2.2 rfl).2⟩

/-- C5 counterexample: the use case is *not* idempotent per email as claimed.
`findByEmail` queries the store with the raw input email while `create`
persists the lowercased one, so two sequential invocations with the mixed-case
email `"A@b.com"` each miss the lookup and each create a User record: the
second run still returns `created = true` and the store ends with two
documents for the one email. -/
theorem createOrFind_duplicates_user_for_mixed_case_email :
    CreateOrFindUserUseCase.execute "A@b.com" 1 emptyUserStore freshAuth =
      .ok (⟨⟨"user-doc-0", 0⟩, true⟩,
           ⟨[("user-doc-0", ⟨some "a@b.com", some 1⟩)], 1⟩,
           ⟨[⟨"user-doc-0", "a@b.com"⟩], [], 1⟩) ∧
    CreateOrFindUserUseCase.execute "A@b.com" 2
        ⟨[("user-doc-0", ⟨some "a@b.com", some 1⟩)], 1⟩
        ⟨[⟨"user-doc-0", "a@b.com"⟩], [], 1⟩ =
      .ok (⟨⟨"user-doc-1", 1⟩, true⟩,
           ⟨[("user-doc-0", ⟨some "a@b.com", some 1⟩),
             ("user-doc-1", ⟨some "a@b.com", some 2⟩)], 2⟩,
           ⟨[⟨"user-doc-0", "a@b.com"⟩, ⟨"user-doc-1", "a@b.com"⟩], [], 2⟩) :=
  ⟨rfl, rfl⟩

/-- C5 as amended: for an email already in lowercase form (which is what the
HTTP schema hands the use case) and a store whose existing documents for that
email are reconstructible, the use case is idempotent with respect to the User
store: after any successful invocation, a second sequential invocation finds
the existing record, reports `created = false` and leaves the user store
untouched — while a fresh credential is still minted (the token of the second
call differs from the first). -/
theorem createOrFind_idempotent_for_normalized_email (e : String)
    (now1 now2 : Nat) (us : UserStore) (auth : AuthService)
    (r1 r2 : CreateOrFindResult × UserStore × AuthService)
    (hlower : jsToLower e = e)
    (hclean : ∀ p ∈ us.docs, p.2.email = some e →
      (User.fromObject p.1 p.2).toOption ≠ none)
    (h1 : CreateOrFindUserUseCase.execute e now1 us auth = .ok r1)
    (h2 : CreateOrFindUserUseCase.execute e now2 r1.2.1 r1.2.2 = .ok r2) :
    r2.1.created = false ∧ r2.2.1 = r1.2.1 ∧
    r2.1.customToken ≠ r1.1.customToken := by
  have hs1 := createOrFind_shape e now1 us auth r1 h1
  have hs2 := createOrFind_shape e now2 r1.2.1 r1.2.2 r2 h2
  have hfound : FSUserRepository.findByEmail e r1.2.1 ≠ none := by
    cases hfb : FSUserRepository.findByEmail e us with
    | some u =>
      rw [(hs1.2.2.2.1 u hfb).1, hfb]
      simp
    | none =>
      obtain ⟨hvalid, hdocs, _, _⟩ := hs1.2.2.2.2 hfb
      have hfind : us.docs.find? (fun p => p.2.email = some e) = none := by
        cases hfd : us.docs.find? (fun p => p.2.email = some e) with
        | none => rfl
        | some q =>
          obtain ⟨qid, qd⟩ := q
          have hqmem : (qid, qd) ∈ us.docs := List.mem_of_find?_eq_some hfd
          have hqpred : qd.email = some e := by
            have := List.find?_some hfd
            simpa using this
          unfold FSUserRepository.findByEmail at hfb
          rw [hfd] at hfb
          exact absurd hfb (hclean (qid, qd) hqmem hqpred)
      intro hcon
      unfold FSUserRepository.findByEmail at hcon
      rw [hdocs, List.find?_append, hfind, Option.none_or] at hcon
      have hstep : List.find? (fun p => decide (p.2.email = some e))
          [(userDocId us.nextId, (⟨some (jsToLower e), some now1⟩ : StoredUser))] =
          some (userDocId us.nextId, ⟨some (jsToLower e), some now1⟩) := by
        rw [hlower]
        simp
      rw [hstep] at hcon
      have hne := userDocId_ne_empty us.nextId
      have hene : e ≠ "" := emailMatches_ne_empty hvalid
      simp only [User.fromObject, if_neg hne, hlower, if_neg hene] at hcon
      rw [User.make, if_pos hvalid] at hcon
      simp [Except.toOption] at hcon
  cases hfound2 : FSUserRepository.findByEmail e r1.2.1 with
  | none => exact absurd hfound2 hfound
  | some u1 =>
    have hstore := (hs2.2.2.2.1 u1 hfound2).1
    have hcreated : r2.1.created = false := by
      cases hc : r2.1.created with
      | false => rfl
      | true =>
        rw [hs2.2.2.1.mp hc] at hfound2
        cases hfound2
    refine ⟨hcreated, hstore, fun heq => ?_⟩
    have hser := congrArg AuthToken.serial heq
    rw [hs2.1, hs1.2.1, hs1.1] at hser
    omega

/-- Witness for C5 (amended): two runs with the lowercase `"a@b.com"` from an
empty store — the second reports `created = false`, the store is unchanged and
the minted token differs. -/
theorem createOrFind_idempotent_for_normalized_email_witness :
    (⟨⟨"user-doc-0", 1⟩, false⟩ : CreateOrFindResult).created = false ∧
    (⟨[("user-doc-0", ⟨some "a@b.com", some 1⟩)], 1⟩ : UserStore) =
      ⟨[("user-doc-0", ⟨some "a@b.com", some 1⟩)], 1⟩ ∧
    (⟨"user-doc-0", 1⟩ : AuthToken) ≠ ⟨"user-doc-0", 0⟩ :=
  createOrFind_idempotent_for_normalized_email "a@b.com" 1 2 emptyUserStore
    freshAuth
    (⟨⟨"user-doc-0", 0⟩, true⟩,
     ⟨[("user-doc-0", ⟨some "a@b.com", some 1⟩)], 1⟩,
     ⟨[⟨"user-doc-0", "a@b.com"⟩], [], 1⟩)
    (⟨⟨"user-doc-0", 1⟩, false⟩,
     ⟨[("user-doc-0", ⟨some "a@b.com", some 1⟩)], 1⟩,
     ⟨[⟨"user-doc-0", "a@b.com"⟩], [], 2⟩)
    rfl (by decide) rfl rfl

end Kanban
